import Mathlib

/-!
Verification of the streaming-session core of the virtual banking assistant
front end (`src/frontend/react-web/src/Content.js`).

Audio samples are modelled as rationals (ℚ).  Every arithmetic operation the
source performs on the relevant values — clamping, multiplication by 32767 or
32768, division by 32768, truncation to a 16-bit integer — is exact in the
source's double-precision arithmetic for the values that can occur (products
stay far below 2^53, divisors are powers of two), so the rational model is a
faithful shallow embedding.

The stateful parts (WebSocket handlers, the microphone script-processor
callback, the connection-timeout/retry logic and the engagement toggle) are
embedded as explicit state-passing functions over small state records, with
the browser event loop modelled as a list of events folded over the state.
-/

/-- JS `ToInt16` conversion applied when storing into an `Int16Array`:
truncation toward zero has already produced an integer; the stored value is
that integer modulo 2^16, reinterpreted as a signed 16-bit value. -/
def toInt16 (i : ℤ) : ℤ := (i + 32768) % 65536 - 32768

/-- Truncation toward zero of a rational, as JS `ToIntegerOrInfinity` does for
a finite number (`Math.trunc` semantics, used by the `Int16Array` store). -/
def truncQ (q : ℚ) : ℤ := if q < 0 then ⌈q⌉ else ⌊q⌋

/-- Per-sample body of `floatToPcm16` (Content.js lines 59–66):
`const s = Math.max(-1, Math.min(1, input[i])); output[i] = s < 0 ? s * 0x8000 : s * 0x7FFF;`
The store into the `Int16Array` applies `ToInt16` to the truncated product. -/
def sampleEncode (x : ℚ) : ℤ :=
  let s : ℚ := max (-1) (min 1 x)
  toInt16 (truncQ (if s < 0 then s * 32768 else s * 32767))

/-- `floatToPcm16` (Content.js lines 59–66): element-wise conversion of a
float block to 16-bit PCM. -/
def floatToPcm16 (input : List ℚ) : List ℤ := input.map sampleEncode

/-- Signed 16-bit value read little-endian from two bytes, as
`dataView.getInt16(i * 2, true)` does (Content.js line 78). -/
def int16At (lo hi : ℕ) : ℤ :=
  let v : ℕ := lo % 256 + 256 * (hi % 256)
  if v < 32768 then (v : ℤ) else (v : ℤ) - 65536

/-- `pcm16ToFloat` (Content.js lines 74–82): reads consecutive little-endian
16-bit values and divides each by 32768.0.  The output has
`byteLength / 2` (floored) samples: `new Float32Array(buffer.byteLength / 2)`
truncates the fractional length via `ToIndex`, so a trailing odd byte is
ignored. -/
def pcm16ToFloat : List ℕ → List ℚ
  | lo :: hi :: rest => ((int16At lo hi : ℚ) / 32768) :: pcm16ToFloat rest
  | _ => []

/-- Little-endian serialization of one 16-bit sample, as
`view.setInt16(index * 2, value, true)` does (Content.js line 172). -/
def int16ToBytesLE (n : ℤ) : List ℕ :=
  let v : ℕ := (n % 65536).toNat
  [v % 256, v / 256]

/-- Byte image of a PCM block (the `ArrayBuffer` built at
Content.js lines 170–173). -/
def pcmBytes (samples : List ℤ) : List ℕ := (samples.map int16ToBytesLE).flatten

/-- Float block to PCM bytes: `floatToPcm16` followed by the little-endian
`DataView` writes (Content.js lines 169–173). -/
def encodeBytes (input : List ℚ) : List ℕ := pcmBytes (floatToPcm16 input)

/-- The base64 alphabet used by `btoa`. -/
def base64Alphabet : List Char :=
  "ABCDEFGHIJKLMNOPQRSTUVWXYZabcdefghijklmnopqrstuvwxyz0123456789+/".toList

/-- One base64 digit. -/
def b64c (n : ℕ) : Char := base64Alphabet.getD n 'A'

/-- `btoa` on a byte sequence (Content.js line 174 feeds the PCM bytes,
viewed as a binary string, to `btoa`). -/
def base64Encode : List ℕ → List Char
  | [] => []
  | [a] =>
      let a := a % 256
      [b64c (a / 4), b64c (a % 4 * 16), '=', '=']
  | [a, b] =>
      let a := a % 256; let b := b % 256
      [b64c (a / 4), b64c (a % 4 * 16 + b / 16), b64c (b % 16 * 4), '=']
  | a :: b :: c :: rest =>
      let a := a % 256; let b := b % 256; let c := c % 256
      [b64c (a / 4), b64c (a % 4 * 16 + b / 16), b64c (b % 16 * 4 + c / 64),
        b64c (c % 64)] ++ base64Encode rest

/-- The text frame sent for one captured block (Content.js lines 168–176). -/
def encodeFrame (input : List ℚ) : List Char := base64Encode (encodeBytes input)

/-- Modelled from the spec: the specification's own description of the encoder,
"maps each float sample s to floor(s<0 ? s*32768 : s*32767) after clamping s to
[-1,1]" — written with mathematical floor, to be compared against the source's
truncation-toward-zero `floatToPcm16`. -/
def floatToPcm16FloorSpec (input : List ℚ) : List ℤ :=
  input.map fun x =>
    let s : ℚ := max (-1) (min 1 x)
    ⌊if s < 0 then s * 32768 else s * 32767⌋

-- Basic facts about the codec.

theorem toInt16_eq_self (n : ℤ) (h1 : -32768 ≤ n) (h2 : n ≤ 32767) :
    toInt16 n = n := by
  unfold toInt16
  omega

theorem clamp_mem (x : ℚ) : -1 ≤ max (-1) (min 1 x) ∧ max (-1) (min 1 x) ≤ 1 := by
  constructor
  · exact le_max_left _ _
  · exact max_le (by norm_num) (min_le_left _ _)

theorem clamp_id (x : ℚ) (h1 : -1 ≤ x) (h2 : x ≤ 1) :
    max (-1) (min 1 x) = x := by
  rw [min_eq_right h2, max_eq_right h1]

theorem sampleEncode_range (x : ℚ) :
    -32768 ≤ sampleEncode x ∧ sampleEncode x ≤ 32767 := by
  unfold sampleEncode
  obtain ⟨hs1, hs2⟩ := clamp_mem x
  set s : ℚ := max (-1) (min 1 x) with hs
  by_cases hneg : s < 0
  · simp only [hneg, if_true]
    unfold truncQ
    have ht : s * 32768 < 0 := by nlinarith
    simp only [ht, if_true]
    have hlo : (-32768 : ℤ) ≤ ⌈s * 32768⌉ := by
      have hb : (-32768 : ℚ) ≤ s * 32768 := by nlinarith
      have := Int.ceil_le_ceil hb
      norm_num at this
      exact this
    have hhi : ⌈s * 32768⌉ ≤ 0 := by
      have : s * 32768 ≤ 0 := le_of_lt ht
      exact Int.ceil_le.mpr (by exact_mod_cast this)
    rw [toInt16_eq_self _ hlo (by omega)]
    omega
  · simp only [hneg, if_false]
    push_neg at hneg
    unfold truncQ
    have ht : ¬ (s * 32767 < 0) := by nlinarith
    simp only [ht, if_false]
    have hlo : (0 : ℤ) ≤ ⌊s * 32767⌋ := Int.floor_nonneg.mpr (by nlinarith)
    have hhi : ⌊s * 32767⌋ ≤ 32767 := by
      have : s * 32767 ≤ (32767 : ℚ) := by nlinarith
      calc ⌊s * 32767⌋ ≤ ⌊(32767 : ℚ)⌋ := Int.floor_le_floor this
        _ = 32767 := by norm_num
    rw [toInt16_eq_self _ (by omega) hhi]
    omega

theorem sampleEncode_int (n : ℤ) (h1 : -32768 ≤ n) (h2 : n ≤ 32767) :
    sampleEncode ((n : ℚ) / 32768) = if 0 < n then n - 1 else n := by
  have hq1 : (-1 : ℚ) ≤ (n : ℚ) / 32768 := by
    rw [le_div_iff (by norm_num : (0:ℚ) < 32768)]
    have : (-32768 : ℚ) ≤ (n : ℚ) := by exact_mod_cast h1
    linarith
  have hq2 : (n : ℚ) / 32768 ≤ 1 := by
    rw [div_le_iff (by norm_num : (0:ℚ) < 32768)]
    have : (n : ℚ) ≤ 32767 := by exact_mod_cast h2
    linarith
  unfold sampleEncode
  rw [clamp_id _ hq1 hq2]
  rcases lt_trichotomy n 0 with hn | hn | hn
  · have hs : (n : ℚ) / 32768 < 0 := by
      apply div_neg_of_neg_of_pos _ (by norm_num)
      exact_mod_cast hn
    simp only [hs, if_true]
    unfold truncQ
    have he : (n : ℚ) / 32768 * 32768 = (n : ℚ) := by field_simp
    rw [he]
    have hc : ((n : ℚ) < 0) := by exact_mod_cast hn
    simp only [hc, if_true, Int.ceil_intCast]
    rw [toInt16_eq_self n h1 h2]
    simp [not_lt.mpr (le_of_lt hn)]
  · subst hn
    simp only [Int.cast_zero, zero_div]
    norm_num [truncQ, toInt16]
  · have hs : ¬ ((n : ℚ) / 32768 < 0) := by
      push_neg
      apply div_nonneg _ (by norm_num)
      exact_mod_cast le_of_lt hn
    simp only [hs, if_false]
    unfold truncQ
    have hnn : ¬ ((n : ℚ) / 32768 * 32767 < 0) := by
      push_neg
      apply mul_nonneg _ (by norm_num)
      apply div_nonneg _ (by norm_num)
      exact_mod_cast le_of_lt hn
    simp only [hnn, if_false]
    have hfl : ⌊(n : ℚ) / 32768 * 32767⌋ = n - 1 := by
      rw [Int.floor_eq_iff]
      constructor
      · push_cast
        rw [div_mul_eq_mul_div, le_div_iff (by norm_num : (0:ℚ) < 32768)]
        have : (1 : ℚ) ≤ (n : ℚ) := by exact_mod_cast hn
        nlinarith
      · push_cast
        rw [div_mul_eq_mul_div, div_lt_iff (by norm_num : (0:ℚ) < 32768)]
        have : (1 : ℚ) ≤ (n : ℚ) := by exact_mod_cast hn
        nlinarith
    rw [hfl, toInt16_eq_self _ (by omega) (by omega)]
    simp [hn]

theorem int16At_range (lo hi : ℕ) :
    -32768 ≤ int16At lo hi ∧ int16At lo hi ≤ 32767 := by
  unfold int16At
  have h1 : lo % 256 < 256 := Nat.mod_lt _ (by norm_num)
  have h2 : hi % 256 < 256 := Nat.mod_lt _ (by norm_num)
  by_cases h : lo % 256 + 256 * (hi % 256) < 32768 <;> simp only [h, if_true, if_false] <;> omega

theorem int16ToBytesLE_int16At (lo hi : ℕ) (hlo : lo < 256) (hhi : hi < 256) :
    int16ToBytesLE (int16At lo hi) = [lo, hi] := by
  unfold int16ToBytesLE int16At
  have e1 : lo % 256 = lo := Nat.mod_eq_of_lt hlo
  have e2 : hi % 256 = hi := Nat.mod_eq_of_lt hhi
  rw [e1, e2]
  by_cases h : lo + 256 * hi < 32768 <;>
    simp only [h, if_true, if_false, List.cons.injEq, and_true] <;>
    exact ⟨by omega, by omega⟩

theorem int16ToBytesLE_lt (n : ℤ) :
    ∃ lo hi, int16ToBytesLE n = [lo, hi] ∧ lo < 256 ∧ hi < 256 ∧
      (-32768 ≤ n → n ≤ 32767 → int16At lo hi = n) := by
  unfold int16ToBytesLE
  refine ⟨(n % 65536).toNat % 256, (n % 65536).toNat / 256, rfl, ?_, ?_, ?_⟩
  · exact Nat.mod_lt _ (by norm_num)
  · have h1 : (0 : ℤ) ≤ n % 65536 := Int.emod_nonneg n (by norm_num)
    have h2 : n % 65536 < 65536 := Int.emod_lt_of_pos n (by norm_num)
    omega
  · intro hlo hhi
    unfold int16At
    have h1 : (0 : ℤ) ≤ n % 65536 := Int.emod_nonneg n (by norm_num)
    have h2 : n % 65536 < 65536 := Int.emod_lt_of_pos n (by norm_num)
    set v : ℕ := (n % 65536).toNat with hv
    have hv65536 : v < 65536 := by omega
    have e1 : v % 256 % 256 = v % 256 := Nat.mod_mod_of_dvd _ (by norm_num)
    have e2 : v / 256 % 256 = v / 256 := Nat.mod_eq_of_lt (by omega)
    rw [e1, e2]
    have hsum : v % 256 + 256 * (v / 256) = v := by omega
    rw [hsum]
    have hcase : (n % 65536 = n ∧ 0 ≤ n) ∨ (n % 65536 = n + 65536 ∧ n < 0) := by omega
    rcases hcase with ⟨he, hn⟩ | ⟨he, hn⟩
    · have : (v : ℤ) = n := by omega
      have hvlt : v < 32768 := by omega
      simp only [hvlt, if_true]
      omega
    · have : (v : ℤ) = n + 65536 := by omega
      have hvlt : ¬ (v < 32768) := by omega
      simp only [hvlt, if_false]
      omega

/-- Decoding two serialized bytes of an in-range sample recovers the sample. -/
theorem pcm16ToFloat_bytes_cons (n : ℤ) (h1 : -32768 ≤ n) (h2 : n ≤ 32767)
    (rest : List ℕ) :
    pcm16ToFloat (int16ToBytesLE n ++ rest) = ((n : ℚ) / 32768) :: pcm16ToFloat rest := by
  obtain ⟨lo, hi, he, _, _, hval⟩ := int16ToBytesLE_lt n
  rw [he]
  simp only [List.cons_append, List.nil_append, pcm16ToFloat]
  rw [hval h1 h2]
  rfl

/-- Decode after encode reduces to the per-sample round trip. -/
theorem pipeline_decode_encode (input : List ℚ) :
    pcm16ToFloat (encodeBytes input)
      = input.map (fun q => ((sampleEncode q : ℚ)) / 32768) := by
  induction input with
  | nil => rfl
  | cons q rest ih =>
      have hr := sampleEncode_range q
      simp only [encodeBytes, floatToPcm16, List.map_cons, pcmBytes,
        List.flatten_cons] at *
      rw [pcm16ToFloat_bytes_cons _ hr.1 hr.2, ih]

theorem pcm16ToFloat_length : ∀ b : List ℕ, (pcm16ToFloat b).length = b.length / 2
  | [] => rfl
  | [_] => by
      show (0 : ℕ) = 1 / 2
      rfl
  | _ :: _ :: rest => by
      simp only [pcm16ToFloat, List.length_cons]
      rw [pcm16ToFloat_length rest]
      omega

theorem pcm16ToFloat_dropLast :
    ∀ b : List ℕ, b.length % 2 = 0 → ∀ x, pcm16ToFloat (b ++ [x]) = pcm16ToFloat b
  | [], _, _ => rfl
  | [_], h, _ => by simp at h
  | lo :: hi :: rest, h, x => by
      show ((int16At lo hi : ℚ) / 32768) :: pcm16ToFloat (rest ++ [x])
          = ((int16At lo hi : ℚ) / 32768) :: pcm16ToFloat rest
      rw [pcm16ToFloat_dropLast rest (by simp only [List.length_cons] at h; omega) x]

/-- Per-sample reconstruction error of decode-after-encode, for in-range
samples: strictly below two quantization steps. -/
theorem sampleEncode_err (q : ℚ) (h1 : -1 ≤ q) (h2 : q ≤ 1) :
    |((sampleEncode q : ℚ)) / 32768 - q| < 2 / 32768 := by
  unfold sampleEncode
  rw [clamp_id q h1 h2]
  by_cases hneg : q < 0
  · simp only [hneg, if_true]
    unfold truncQ
    have ht : q * 32768 < 0 := by nlinarith
    simp only [ht, if_true]
    have hlo : (-32768 : ℤ) ≤ ⌈q * 32768⌉ := by
      have hb : (-32768 : ℚ) ≤ q * 32768 := by nlinarith
      have := Int.ceil_le_ceil hb
      norm_num at this
      exact this
    have hhi : ⌈q * 32768⌉ ≤ 0 := Int.ceil_le.mpr (by exact_mod_cast le_of_lt ht)
    rw [toInt16_eq_self _ hlo (by omega)]
    have hc1 : (q * 32768 : ℚ) ≤ ⌈q * 32768⌉ := Int.le_ceil _
    have hc2 : ((⌈q * 32768⌉ : ℤ) : ℚ) < q * 32768 + 1 := Int.ceil_lt_add_one _
    have key : ((⌈q * 32768⌉ : ℤ) : ℚ) / 32768 - q
        = (((⌈q * 32768⌉ : ℤ) : ℚ) - q * 32768) / 32768 := by ring
    rw [key, abs_of_nonneg (div_nonneg (by linarith) (by norm_num))]
    rw [div_lt_div_iff_of_pos_right (by norm_num : (0:ℚ) < 32768)]
    linarith
  · simp only [hneg, if_false]
    push_neg at hneg
    unfold truncQ
    have ht : ¬ (q * 32767 < 0) := by nlinarith
    simp only [ht, if_false]
    have hlo : (0 : ℤ) ≤ ⌊q * 32767⌋ := Int.floor_nonneg.mpr (by nlinarith)
    have hhi : ⌊q * 32767⌋ ≤ 32767 := by
      have hb : q * 32767 ≤ (32767 : ℚ) := by nlinarith
      calc ⌊q * 32767⌋ ≤ ⌊(32767 : ℚ)⌋ := Int.floor_le_floor hb
        _ = 32767 := by norm_num
    rw [toInt16_eq_self _ (by omega) hhi]
    have hf1 : ((⌊q * 32767⌋ : ℤ) : ℚ) ≤ q * 32767 := Int.floor_le _
    have hf2 : q * 32767 - 1 < ((⌊q * 32767⌋ : ℤ) : ℚ) := Int.sub_one_lt_floor _
    have hle : ((⌊q * 32767⌋ : ℤ) : ℚ) / 32768 - q ≤ 0 := by
      rw [sub_nonpos, div_le_iff₀ (by norm_num : (0:ℚ) < 32768)]
      nlinarith
    rw [abs_of_nonpos (by linarith)]
    have key : -(((⌊q * 32767⌋ : ℤ) : ℚ) / 32768 - q)
        = (q * 32768 - ((⌊q * 32767⌋ : ℤ) : ℚ)) / 32768 := by ring
    rw [key, div_lt_div_iff_of_pos_right (by norm_num : (0:ℚ) < 32768)]
    nlinarith

/-- Byte-level round trip for buffers whose samples are all nonpositive. -/
theorem encode_decode_bytes :
    ∀ b : List ℕ, (∀ y ∈ b, y < 256) → b.length % 2 = 0 →
      (∀ q ∈ pcm16ToFloat b, q ≤ 0) →
      encodeBytes (pcm16ToFloat b) = b
  | [], _, _, _ => rfl
  | [_], _, h, _ => by simp at h
  | lo :: hi :: rest, hb, hlen, hq => by
      have hd : pcm16ToFloat (lo :: hi :: rest)
          = ((int16At lo hi : ℚ) / 32768) :: pcm16ToFloat rest := rfl
      rw [hd] at hq ⊢
      have hr := int16At_range lo hi
      have hn : int16At lo hi ≤ 0 := by
        have hq0 : ((int16At lo hi : ℚ)) / 32768 ≤ 0 := hq _ (List.mem_cons_self _ _)
        rw [div_nonpos_iff] at hq0
        rcases hq0 with ⟨h', h''⟩ | ⟨h', h''⟩
        · norm_num at h''
        · exact_mod_cast h'
      simp only [encodeBytes, floatToPcm16, List.map_cons, pcmBytes, List.flatten_cons]
      rw [sampleEncode_int _ hr.1 hr.2, if_neg (not_lt.mpr hn)]
      rw [int16ToBytesLE_int16At lo hi (hb lo (by simp)) (hb hi (by simp))]
      have ih := encode_decode_bytes rest (fun y hy => hb y (by simp [hy]))
        (by simp only [List.length_cons] at hlen; omega)
        (fun q hq' => hq q (by simp [hq']))
      simp only [encodeBytes, floatToPcm16, pcmBytes] at ih
      rw [ih]
      rfl

-- ------------------------------------------------------------------
-- Inbound message dispatch (wsRef.current.onmessage, Content.js 262–308)
-- ------------------------------------------------------------------

/-- One transcript entry, as pushed at Content.js lines 300–303:
`{ isMine: chunk.speaker === 'user', text: chunk.data }`. -/
structure TranscriptEntry where
  isMine : Bool
  text : String
deriving DecidableEq, Repr

/-- A parsed inbound `TransportMessage` (the `chunk` of the onmessage
handler).  A `media` event carries the bytes obtained from `atob` of its
base64 payload (the byte build-up at Content.js lines 277–282). -/
inductive WsEvent where
  | stop : WsEvent
  | media : List ℕ → WsEvent
  | text : String → String → WsEvent
deriving DecidableEq, Repr

/-- Client-side state touched by the onmessage handler.  `workletPresent`
models `audioWorkletNodeRef.current` being non-null; `workletBuffer` is the
play-out queue held by the audio worklet (`audio-processor.js`, which is not
part of the sources; modelled from the spec: the Render Pipeline appends
enqueued blocks and `interrupt()` — the `{type:'stop'}` message — clears all
queued audio).  `capture` is an opaque token for the microphone capture graph
(stream, script processor and zero-gain path), which the handler never
touches. -/
structure ClientState where
  messages : List TranscriptEntry
  talking : Bool
  workletPresent : Bool
  workletBuffer : List ℚ
  capture : ℕ
deriving DecidableEq, Repr

/-- The onmessage dispatch (Content.js lines 262–308):
* `stop` (lines 266–273): posts `{type:'stop'}` to the worklet when present
  (the worklet then drops its queued audio) and calls `setTalking(false)`;
* `media` (lines 275–298): decodes the payload; only when the decoded block
  is non-empty and the worklet exists does it post `{type:'data'}` (the
  worklet appends the block) and raise the talking flag;
* `text` (lines 299–304): appends a transcript entry whose `isMine` flag is
  `chunk.speaker === 'user'`. -/
def handleMessage (st : ClientState) : WsEvent → ClientState
  | .stop =>
      let st := if st.workletPresent then { st with workletBuffer := [] } else st
      { st with talking := false }
  | .media bytes =>
      let samples := pcm16ToFloat bytes
      if 0 < samples.length ∧ st.workletPresent then
        { st with workletBuffer := st.workletBuffer ++ samples, talking := true }
      else st
  | .text speaker data =>
      { st with messages := st.messages ++ [⟨speaker == "user", data⟩] }

/-- Receipt-order processing of a sequence of inbound messages. -/
def processEvents (st : ClientState) : List WsEvent → ClientState
  | [] => st
  | e :: rest => processEvents (handleMessage st e) rest

/-- Initial client state at engagement (Content.js lines 43–46 and 104–107:
empty transcript, not talking, worklet installed). -/
def initialClient : ClientState :=
  { messages := [], talking := false, workletPresent := true,
    workletBuffer := [], capture := 0 }

-- ------------------------------------------------------------------
-- Microphone capture path (processor.onaudioprocess, Content.js 162–180)
-- ------------------------------------------------------------------

/-- `WebSocket.readyState` values. -/
inductive WsReadyState where
  | CONNECTING | OPEN | CLOSING | CLOSED
deriving DecidableEq, Repr

/-- One invocation of `processor.onaudioprocess` (Content.js lines 162–180):
if `wsRef.current?.readyState !== WebSocket.OPEN` the block is dropped with
no effect (no buffering); otherwise the block is PCM- and base64-encoded and
sent, appending one frame to the send log. -/
def micProcess (ready : WsReadyState) (block : List ℚ) (sent : List (List Char)) :
    List (List Char) :=
  if ready = WsReadyState.OPEN then sent ++ [encodeFrame block] else sent

/-- A capture session: a sequence of audio-process callbacks, each seeing the
channel in some ready state and carrying one input block. -/
def captureRun : List (WsReadyState × List ℚ) → List (List Char) → List (List Char)
  | [], sent => sent
  | (ready, block) :: rest, sent => captureRun rest (micProcess ready block sent)

theorem captureRun_spec :
    ∀ (evs : List (WsReadyState × List ℚ)) (sent : List (List Char)),
      captureRun evs sent
        = sent ++ (evs.filter (fun e => e.1 = WsReadyState.OPEN)).map
            (fun e => encodeFrame e.2)
  | [], sent => by simp [captureRun]
  | (ready, block) :: rest, sent => by
      by_cases h : ready = WsReadyState.OPEN
      · simp only [captureRun, micProcess, h, if_true, captureRun_spec rest,
          List.filter_cons, List.map_cons]
        simp [List.append_assoc]
      · simp only [captureRun, micProcess, h, if_false, captureRun_spec rest,
          List.filter_cons]
        simp [h]

-- ------------------------------------------------------------------
-- Connection lifecycle (connectWebSocket, Content.js 242–334; cleanup,
-- Content.js 200–226; onopen 256–260; onclose 316–327)
-- ------------------------------------------------------------------

/-- Transport-lifecycle state.  `attempts` counts invocations of
`connectWebSocket` (each constructs one `new WebSocket`); `currentGen` is the
index of the socket currently held by `wsRef.current`; `timers` lists the
still-pending per-attempt connection timeouts as (generation, delay-ms)
pairs — `connectWebSocket` arms one with `setTimeout(..., 5000)` and each
handler clears only the timeout captured by its own closure. -/
structure TransportState where
  engaged : Bool
  talking : Bool
  attempts : ℕ
  currentGen : ℕ
  currentReady : WsReadyState
  timers : List (ℕ × ℕ)
deriving DecidableEq, Repr

/-- `connectWebSocket` (Content.js lines 242–255): constructs a new socket,
stores it in `wsRef.current` (in the CONNECTING state) and arms a 5000 ms
connection timeout for this attempt. -/
def connectWebSocket (st : TransportState) : TransportState :=
  { st with attempts := st.attempts + 1, currentGen := st.attempts,
            currentReady := WsReadyState.CONNECTING,
            timers := (st.attempts, 5000) :: st.timers }

/-- `ws.close()` as seen on a socket's ready state: a no-op on a CLOSED
socket, otherwise the socket moves to CLOSING. -/
def wsClose (r : WsReadyState) : WsReadyState :=
  match r with
  | WsReadyState.CLOSED => WsReadyState.CLOSED
  | _ => WsReadyState.CLOSING

/-- The `cleanup` body relevant to the channel (Content.js lines 200–207):
`wsRef.current.close(1000, ...)` is issued only when the socket is OPEN or
CONNECTING.  It does not touch any pending connection timeout. -/
def cleanupClose (st : TransportState) : TransportState :=
  if st.currentReady = WsReadyState.OPEN ∨ st.currentReady = WsReadyState.CONNECTING then
    { st with currentReady := WsReadyState.CLOSING }
  else st

/-- `setEngaged(false)`: the engagement flag drops and the `useEffect` keyed
on `isEngaged` (Content.js lines 197–344) runs `cleanup`. -/
def setEngagedFalse (st : TransportState) : TransportState :=
  cleanupClose { st with engaged := false }

/-- `st.timers` membership by generation. -/
def hasTimer (st : TransportState) (g : ℕ) : Bool :=
  st.timers.any (fun t => t.1 == g)

/-- `clearTimeout` of the timer belonging to attempt `g`. -/
def clearTimer (st : TransportState) (g : ℕ) : TransportState :=
  { st with timers := st.timers.filter (fun t => t.1 != g) }

/-- Event-loop tasks that can run against the transport state. -/
inductive TEvent where
  | timerFire : ℕ → TEvent
  | closeEvt : ℕ → ℕ → TEvent
  | openEvt : ℕ → TEvent
  | disengage : TEvent
deriving DecidableEq, Repr

/-- One event-loop step.
* `timerFire g` (Content.js lines 248–254): a pending connection timeout for
  attempt `g` fires (a cleared timeout never fires).  The callback inspects
  `wsRef.current.readyState`; if it is not OPEN it closes the current socket
  and calls `connectWebSocket()` again.
* `closeEvt g code` (Content.js lines 316–327): the close event of socket `g`
  runs `onclose`: it clears that attempt's timeout, calls `setTalking(false)`
  and, only for the normal-closure code 1000, `setEngaged(false)`; any other
  code merely logs "Abnormal closure, not disengaging".
* `openEvt g` (Content.js lines 256–260): `onopen` clears that attempt's
  timeout (the microphone init it performs is outside this state).
* `disengage`: the user toggles engagement off (Content.js lines 365–370),
  which runs the effect cleanup. -/
def applyEvent (st : TransportState) : TEvent → TransportState
  | TEvent.timerFire g =>
      if hasTimer st g then
        let st := clearTimer st g
        if st.currentReady ≠ WsReadyState.OPEN then
          connectWebSocket { st with currentReady := wsClose st.currentReady }
        else st
      else st
  | TEvent.closeEvt g code =>
      let st := clearTimer st g
      let st := { st with talking := false }
      let st := if g = st.currentGen then { st with currentReady := WsReadyState.CLOSED }
                else st
      if code = 1000 then setEngagedFalse st else st
  | TEvent.openEvt g =>
      let st := clearTimer st g
      if g = st.currentGen then { st with currentReady := WsReadyState.OPEN } else st
  | TEvent.disengage => setEngagedFalse st

/-- Run a list of event-loop tasks in order. -/
def runEvents (st : TransportState) : List TEvent → TransportState
  | [] => st
  | e :: rest => runEvents (applyEvent st e) rest

/-- State at the start of an engagement cycle, right before the initial
`connectWebSocket()` call (Content.js line 334). -/
def initialTransport : TransportState :=
  { engaged := true, talking := false, attempts := 0, currentGen := 0,
    currentReady := WsReadyState.CLOSED, timers := [] }

/-- Canonical state after attempt `k` of an engagement whose connect attempts
keep timing out: `k + 1` sockets created, the latest still CONNECTING with its
5000 ms timeout pending. -/
def attemptState (k : ℕ) : TransportState :=
  { engaged := true, talking := false, attempts := k + 1, currentGen := k,
    currentReady := WsReadyState.CONNECTING, timers := [(k, 5000)] }

theorem connect_initial : connectWebSocket initialTransport = attemptState 0 := rfl

theorem attempt_step (k : ℕ) :
    applyEvent (attemptState k) (TEvent.timerFire k) = attemptState (k + 1) := by
  simp [applyEvent, hasTimer, clearTimer, attemptState, connectWebSocket, wsClose]

/-- The timeout schedule: timers of attempts `a, a+1, ..., a+n-1` fire in
order, the channel never opening. -/
def fireSeq (a n : ℕ) : List TEvent :=
  (List.range n).map (fun i => TEvent.timerFire (a + i))

theorem fireSeq_cons (a n : ℕ) :
    fireSeq a (n + 1) = TEvent.timerFire a :: fireSeq (a + 1) n := by
  simp only [fireSeq, List.range_succ_eq_map, List.map_cons, Nat.add_zero,
    List.map_map]
  refine congrArg _ ?_
  apply List.map_congr_left
  intro i _
  simp only [Function.comp_apply]
  congr 1
  omega

theorem runEvents_fireSeq (a n : ℕ) :
    runEvents (attemptState a) (fireSeq a n) = attemptState (a + n) := by
  induction n generalizing a with
  | zero => simp [fireSeq, runEvents]
  | succ n ih =>
      rw [fireSeq_cons]
      show runEvents (applyEvent (attemptState a) (TEvent.timerFire a)) (fireSeq (a + 1) n)
          = attemptState (a + (n + 1))
      rw [attempt_step, ih (a + 1)]
      congr 1
      omega

theorem cleanupClose_fields (st : TransportState) :
    (cleanupClose st).engaged = st.engaged ∧ (cleanupClose st).attempts = st.attempts ∧
    (cleanupClose st).timers = st.timers := by
  unfold cleanupClose
  split_ifs <;> exact ⟨rfl, rfl, rfl⟩

theorem setEngagedFalse_fields (st : TransportState) :
    (setEngagedFalse st).engaged = false ∧ (setEngagedFalse st).attempts = st.attempts ∧
    (setEngagedFalse st).timers = st.timers := by
  unfold setEngagedFalse
  obtain ⟨h1, h2, h3⟩ := cleanupClose_fields { st with engaged := false }
  exact ⟨h1, h2, h3⟩

theorem closeEvt_state (st : TransportState) (g code : ℕ) :
    (applyEvent st (TEvent.closeEvt g code)).attempts = st.attempts ∧
    (applyEvent st (TEvent.closeEvt g code)).engaged
      = (if code = 1000 then false else st.engaged) ∧
    (applyEvent st (TEvent.closeEvt g code)).timers
      = st.timers.filter (fun t => t.1 != g) := by
  simp only [applyEvent]
  by_cases hc : code = 1000 <;> by_cases hg : g = st.currentGen <;>
    simp [hc, hg, setEngagedFalse, cleanupClose, clearTimer,
      apply_ite TransportState.attempts, apply_ite TransportState.engaged,
      apply_ite TransportState.timers]

theorem applyEvent_no_timer (st : TransportState) (e : TEvent) (h : st.timers = []) :
    (applyEvent st e).attempts = st.attempts ∧ (applyEvent st e).timers = [] := by
  cases e with
  | timerFire g => simp [applyEvent, hasTimer, h]
  | closeEvt g c =>
      have hs := closeEvt_state st g c
      exact ⟨hs.1, by rw [hs.2.2, h]; rfl⟩
  | openEvt g =>
      by_cases hg : g = st.currentGen <;> simp [applyEvent, clearTimer, h, hg]
  | disengage =>
      have hs := setEngagedFalse_fields st
      exact ⟨hs.2.1, by show (setEngagedFalse st).timers = []; rw [hs.2.2, h]⟩

theorem runEvents_no_timer :
    ∀ (evs : List TEvent) (st : TransportState), st.timers = [] →
      (runEvents st evs).attempts = st.attempts ∧ (runEvents st evs).timers = []
  | [], st, h => ⟨rfl, h⟩
  | e :: rest, st, h => by
      have h1 := applyEvent_no_timer st e h
      have h2 := runEvents_no_timer rest (applyEvent st e) h1.2
      exact ⟨h2.1.trans h1.1, h2.2⟩

theorem handleMessage_messages :
    ∀ (st : ClientState) (e : WsEvent),
      (handleMessage st e).messages
        = st.messages ++ (match e with
            | WsEvent.text speaker data => [(⟨speaker == "user", data⟩ : TranscriptEntry)]
            | _ => [])
  | st, WsEvent.stop => by
      simp only [handleMessage]
      by_cases h : st.workletPresent <;> simp [h]
  | st, WsEvent.media bytes => by
      simp only [handleMessage]
      split_ifs <;> simp
  | st, WsEvent.text speaker data => by simp [handleMessage]

theorem processEvents_messages :
    ∀ (evs : List WsEvent) (st : ClientState),
      (processEvents st evs).messages
        = st.messages ++ evs.filterMap (fun e =>
            match e with
            | WsEvent.text speaker data => some ⟨speaker == "user", data⟩
            | _ => none)
  | [], st => by simp [processEvents]
  | e :: rest, st => by
      simp only [processEvents, List.filterMap_cons]
      rw [processEvents_messages rest, handleMessage_messages st e]
      cases e <;> simp

-- ------------------------------------------------------------------
-- Claims
-- ------------------------------------------------------------------

/-- C2 (counterexample): the claimed identity `encode(decode(b)) == b` for
every even-length byte buffer fails at the concrete buffer `[1, 0]` (the
16-bit sample +1): decoding gives 1/32768, and re-encoding multiplies by
32767 and truncates, yielding sample 0, i.e. bytes `[0, 0]`. -/
theorem C2_roundtrip_cex :
    encodeBytes (pcm16ToFloat [1, 0]) = [0, 0] ∧
    encodeBytes (pcm16ToFloat [1, 0]) ≠ [1, 0] := by
  have h1 : pcm16ToFloat [1, 0] = [(1 : ℚ) / 32768] := by
    norm_num [pcm16ToFloat, int16At]
  have h2 : sampleEncode ((1 : ℚ) / 32768) = 0 := by
    have h := sampleEncode_int 1 (by norm_num) (by norm_num)
    rw [if_pos (by norm_num : (0 : ℤ) < 1)] at h
    norm_num at h
    exact h
  have h3 : encodeBytes (pcm16ToFloat [1, 0]) = [0, 0] := by
    rw [h1]
    simp only [encodeBytes, floatToPcm16, List.map_cons, List.map_nil, pcmBytes,
      List.flatten_cons, List.flatten_nil, h2]
    decide
  exact ⟨h3, by rw [h3]; decide⟩

/-- C2 (amended): decoding divides by 32768 but encoding multiplies
nonnegative samples by 32767 and truncates, so a 16-bit sample n round-trips
to n - 1 when n > 0 and to n exactly when n ≤ 0; consequently
`encode(decode(b)) == b` holds for an even-length byte buffer exactly in the
nonpositive-sample case. -/
theorem C2_roundtrip_nonpositive :
    (∀ n : ℤ, -32768 ≤ n → n ≤ 32767 →
        sampleEncode ((n : ℚ) / 32768) = if 0 < n then n - 1 else n) ∧
    (∀ b : List ℕ, (∀ y ∈ b, y < 256) → b.length % 2 = 0 →
        (∀ q ∈ pcm16ToFloat b, q ≤ 0) → encodeBytes (pcm16ToFloat b) = b) :=
  ⟨sampleEncode_int, encode_decode_bytes⟩

theorem C2_roundtrip_nonpositive_witness :
    sampleEncode (((-5 : ℤ) : ℚ) / 32768) = -5 ∧
    encodeBytes (pcm16ToFloat [251, 255]) = [251, 255] := by
  constructor
  · have h := C2_roundtrip_nonpositive.1 (-5) (by norm_num) (by norm_num)
    rw [if_neg (by norm_num : ¬ ((0 : ℤ) < -5))] at h
    exact h
  · refine C2_roundtrip_nonpositive.2 [251, 255] (by decide) (by decide) ?_
    intro q hq
    norm_num [pcm16ToFloat, int16At] at hq
    rw [hq]
    norm_num

/-- C3 (counterexample): the encoder does not apply mathematical floor; the
`Int16Array` store truncates toward zero.  At the in-range sample
-1/65536 the product is -0.5: floor would give -1, the code gives 0. -/
theorem C3_floor_cex :
    floatToPcm16 [-(1 / 65536 : ℚ)] = [0] ∧
    floatToPcm16FloorSpec [-(1 / 65536 : ℚ)] = [-1] ∧
    floatToPcm16 [-(1 / 65536 : ℚ)] ≠ floatToPcm16FloorSpec [-(1 / 65536 : ℚ)] := by
  have hm : -(1 / 65536 : ℚ) * 32768 = -(1 / 2 : ℚ) := by norm_num
  have h1 : floatToPcm16 [-(1 / 65536 : ℚ)] = [0] := by
    simp only [floatToPcm16, List.map_cons, List.map_nil, sampleEncode]
    rw [clamp_id _ (by norm_num) (by norm_num)]
    rw [if_pos (by norm_num : -(1 / 65536 : ℚ) < 0), hm]
    unfold truncQ
    rw [if_pos (by norm_num : -(1 / 2 : ℚ) < 0)]
    have hc : ⌈-(1 / 2 : ℚ)⌉ = 0 := by
      rw [Int.ceil_eq_iff]
      norm_num
    rw [hc]
    norm_num [toInt16]
  have h2 : floatToPcm16FloorSpec [-(1 / 65536 : ℚ)] = [-1] := by
    simp only [floatToPcm16FloorSpec, List.map_cons, List.map_nil]
    rw [clamp_id _ (by norm_num) (by norm_num)]
    rw [if_pos (by norm_num : -(1 / 65536 : ℚ) < 0), hm]
    have hf : ⌊-(1 / 2 : ℚ)⌋ = -1 := by
      rw [Int.floor_eq_iff]
      norm_num
    rw [hf]
  refine ⟨h1, h2, ?_⟩
  rw [h1, h2]
  decide

/-- C3 (amended): the encoder clamps each sample to [-1,1], multiplies by
32768 (negative branch) or 32767 (nonnegative branch) and truncates toward
zero (not floor); every output sample lies in the signed 16-bit range
[-32768, 32767]; out-of-range inputs are clamped (+saturation values), never
rejected; the function is a pure total map. -/
theorem C3_encode_range_clamp :
    (∀ (input : List ℚ), ∀ n ∈ floatToPcm16 input, -32768 ≤ n ∧ n ≤ 32767) ∧
    (∀ x : ℚ, 1 ≤ x → sampleEncode x = 32767) ∧
    (∀ x : ℚ, x ≤ -1 → sampleEncode x = -32768) ∧
    (∀ input : List ℚ, floatToPcm16 input = input.map sampleEncode) := by
  refine ⟨?_, ?_, ?_, fun _ => rfl⟩
  · intro input n hn
    simp only [floatToPcm16, List.mem_map] at hn
    obtain ⟨x, _, rfl⟩ := hn
    exact sampleEncode_range x
  · intro x hx
    unfold sampleEncode
    rw [min_eq_left hx, max_eq_right (by norm_num : (-1 : ℚ) ≤ 1)]
    norm_num [truncQ, toInt16]
  · intro x hx
    unfold sampleEncode
    rw [min_eq_right (hx.trans (by norm_num)), max_eq_left hx]
    show toInt16 (truncQ (if (-1 : ℚ) < 0 then (-1 : ℚ) * 32768 else (-1 : ℚ) * 32767))
        = -32768
    rw [if_pos (by norm_num : (-1 : ℚ) < 0)]
    have h1 : (-1 : ℚ) * 32768 = -32768 := by norm_num
    rw [h1]
    unfold truncQ
    rw [if_pos (by norm_num : (-32768 : ℚ) < 0)]
    have h2 : ⌈(-32768 : ℚ)⌉ = -32768 := by
      rw [Int.ceil_eq_iff]
      norm_num
    rw [h2]
    unfold toInt16
    decide

theorem C3_encode_range_clamp_witness :
    sampleEncode 2 = 32767 ∧ sampleEncode (-2) = -32768 ∧
    (-32768 ≤ sampleEncode (1 / 2) ∧ sampleEncode (1 / 2) ≤ 32767) :=
  ⟨C3_encode_range_clamp.2.1 2 (by norm_num),
   C3_encode_range_clamp.2.2.1 (-2) (by norm_num),
   C3_encode_range_clamp.1 [1 / 2] (sampleEncode (1 / 2)) (by simp [floatToPcm16])⟩

/-- C4 (counterexample): at the in-range sample 65535/65536 (a value
representable in single precision), decode-after-encode yields 32766/32768;
the error is 3/65536 = 1.5 quantization steps, exceeding the claimed bound of
one step (1/32768). -/
theorem C4_quantization_cex :
    pcm16ToFloat (encodeBytes [(65535 : ℚ) / 65536]) = [(32766 : ℚ) / 32768] ∧
    ¬ |(32766 : ℚ) / 32768 - (65535 : ℚ) / 65536| ≤ 1 / 32768 := by
  have hs : sampleEncode ((65535 : ℚ) / 65536) = 32766 := by
    unfold sampleEncode
    rw [clamp_id _ (by norm_num) (by norm_num)]
    show toInt16 (truncQ (if (65535 : ℚ) / 65536 < 0 then (65535 : ℚ) / 65536 * 32768
        else (65535 : ℚ) / 65536 * 32767)) = 32766
    rw [if_neg (by norm_num : ¬ ((65535 : ℚ) / 65536 < 0))]
    unfold truncQ
    rw [if_neg (by norm_num : ¬ ((65535 : ℚ) / 65536 * 32767 < 0))]
    have h2 : ⌊(65535 : ℚ) / 65536 * 32767⌋ = 32766 := by
      rw [Int.floor_eq_iff]
      norm_num
    rw [h2]
    unfold toInt16
    decide
  constructor
  · rw [pipeline_decode_encode]
    simp only [List.map_cons, List.map_nil, hs]
    norm_num
  · rw [abs_of_nonpos (by norm_num)]
    norm_num

/-- Pointwise reconstruction bound for in-range inputs. -/
theorem decode_encode_forall :
    ∀ input : List ℚ, (∀ q ∈ input, -1 ≤ q ∧ q ≤ 1) →
      List.Forall₂ (fun d q => |d - q| < 2 / 32768)
        (input.map (fun q => ((sampleEncode q : ℚ)) / 32768)) input
  | [], _ => List.Forall₂.nil
  | q :: rest, h => by
      simp only [List.map_cons]
      exact List.Forall₂.cons
        (sampleEncode_err q (h q (by simp)).1 (h q (by simp)).2)
        (decode_encode_forall rest (fun x hx => h x (by simp [hx])))

/-- C4 (amended): for in-range sample arrays, each element of
`decode(encode(s))` differs from the corresponding element of `s` by strictly
less than two 16-bit quantization steps (2/32768); the one-step bound of the
original claim holds on the nonpositive side but fails for positive samples
near 1 because the encoder multiplies by 32767 while the decoder divides by
32768. -/
theorem C4_quantization_bound (input : List ℚ)
    (h : ∀ q ∈ input, -1 ≤ q ∧ q ≤ 1) :
    List.Forall₂ (fun d q => |d - q| < 2 / 32768)
      (pcm16ToFloat (encodeBytes input)) input := by
  rw [pipeline_decode_encode]
  exact decode_encode_forall input h

theorem C4_quantization_bound_witness :
    List.Forall₂ (fun d q => |d - q| < 2 / 32768)
      (pcm16ToFloat (encodeBytes [(1 : ℚ) / 2])) [(1 : ℚ) / 2] :=
  C4_quantization_bound [(1 : ℚ) / 2]
    (by intro q hq; rw [List.mem_singleton] at hq; rw [hq]; constructor <;> norm_num)

/-- C5: decode divides each little-endian signed 16-bit value by 32768 and
tolerates odd byte lengths: the output has floor(byteLength/2) samples and a
trailing odd byte is ignored. -/
theorem C5_decode_truncates :
    (∀ b : List ℕ, (pcm16ToFloat b).length = b.length / 2) ∧
    (∀ b : List ℕ, b.length % 2 = 0 → ∀ x, pcm16ToFloat (b ++ [x]) = pcm16ToFloat b) ∧
    (∀ (lo hi : ℕ) (rest : List ℕ),
        pcm16ToFloat (lo :: hi :: rest)
          = ((int16At lo hi : ℚ) / 32768) :: pcm16ToFloat rest) :=
  ⟨pcm16ToFloat_length, pcm16ToFloat_dropLast, fun _ _ _ => rfl⟩

theorem C5_decode_truncates_witness :
    pcm16ToFloat ([1, 2] ++ [3]) = pcm16ToFloat [1, 2] :=
  C5_decode_truncates.2.1 [1, 2] (by decide) 3

/-- C6: a capture session's outbound frames are exactly the encodings of the
blocks seen while the channel was OPEN, in capture order: a block captured in
any other ready state contributes nothing to the send log at capture time,
nothing is buffered for it, and it can never appear after the channel later
reopens. -/
theorem C6_no_buffering :
    ∀ (evs : List (WsReadyState × List ℚ)) (sent : List (List Char)),
      captureRun evs sent
        = sent ++ (evs.filter (fun e => e.1 = WsReadyState.OPEN)).map
            (fun e => encodeFrame e.2) :=
  captureRun_spec

/-- C8: receiving `{event:"stop"}` clears the entire queued playback in the
same dispatch step, resets the agent-speaking flag, and leaves the transcript,
the worklet installation and the capture graph untouched. -/
theorem C8_stop_clears_playback (st : ClientState) (h : st.workletPresent = true) :
    handleMessage st WsEvent.stop
      = { st with workletBuffer := [], talking := false } := by
  simp [handleMessage, h]

theorem C8_stop_clears_playback_witness :
    handleMessage
        { messages := [], talking := true, workletPresent := true,
          workletBuffer := [1, 2], capture := 7 } WsEvent.stop
      = { messages := [], talking := false, workletPresent := true,
          workletBuffer := [], capture := 7 } :=
  C8_stop_clears_playback
    { messages := [], talking := true, workletPresent := true,
      workletBuffer := [1, 2], capture := 7 } rfl

/-- C9: text messages are appended to the transcript in receipt order, with
`isMine` true exactly when the speaker field is "user"; prior entries are
never mutated or removed (the new transcript is always the old transcript
plus the new entries); in particular the user-"Hi" / agent-"Hello" sequence
from the empty transcript yields exactly those two entries in order. -/
theorem C9_transcript_append :
    (∀ (st : ClientState) (evs : List WsEvent),
        (processEvents st evs).messages
          = st.messages ++ evs.filterMap (fun e =>
              match e with
              | WsEvent.text speaker data => some ⟨speaker == "user", data⟩
              | _ => none)) ∧
    (processEvents initialClient
        [WsEvent.text "user" "Hi", WsEvent.text "agent" "Hello"]).messages
      = [⟨true, "Hi"⟩, ⟨false, "Hello"⟩] := by
  refine ⟨fun st evs => processEvents_messages evs st, ?_⟩
  rw [processEvents_messages]
  decide

/-- C10: a media message whose payload holds fewer than two bytes decodes to
zero samples, so the dispatch posts nothing to the worklet queue and changes
no state at all — in particular the talking flag is untouched. -/
theorem C10_empty_media_noop (st : ClientState) (bytes : List ℕ)
    (h : bytes.length < 2) :
    handleMessage st (WsEvent.media bytes) = st := by
  have hlen : (pcm16ToFloat bytes).length = 0 := by
    rw [pcm16ToFloat_length]
    omega
  simp [handleMessage, hlen]

theorem C10_empty_media_noop_witness :
    handleMessage
        { messages := [], talking := true, workletPresent := true,
          workletBuffer := [3], capture := 2 } (WsEvent.media [9])
      = { messages := [], talking := true, workletPresent := true,
          workletBuffer := [3], capture := 2 } :=
  C10_empty_media_noop
    { messages := [], talking := true, workletPresent := true,
      workletBuffer := [3], capture := 2 } [9] (by decide)

/-- C1 (counterexample): from an engaged session with an open socket, an
abnormal close (code 1006) triggers no reconnect at all — the attempt counter
stays at 1 instead of growing to 2 — and the session stays engaged; the
handler only logs and refuses to disengage. -/
theorem C1_abnormal_close_cex :
    (applyEvent (connectWebSocket initialTransport) (TEvent.openEvt 0)).engaged = true ∧
    (applyEvent (applyEvent (connectWebSocket initialTransport) (TEvent.openEvt 0))
        (TEvent.closeEvt 0 1006)).attempts = 1 ∧
    ¬ ((applyEvent (applyEvent (connectWebSocket initialTransport) (TEvent.openEvt 0))
        (TEvent.closeEvt 0 1006)).attempts
          = (applyEvent (connectWebSocket initialTransport) (TEvent.openEvt 0)).attempts
            + 1) := by
  decide

/-- C1 (amended): the close handler never begins a connect attempt, whatever
the close code; on an abnormal code (≠ 1000) engagement is left unchanged
(the session idles without reconnecting), and on the normal-closure code 1000
engagement is set false (the disengaged signal to the session controller). -/
theorem C1_close_handler :
    ∀ (st : TransportState) (g code : ℕ),
      (applyEvent st (TEvent.closeEvt g code)).attempts = st.attempts ∧
      (code ≠ 1000 → (applyEvent st (TEvent.closeEvt g code)).engaged = st.engaged) ∧
      (code = 1000 → (applyEvent st (TEvent.closeEvt g code)).engaged = false) := by
  intro st g code
  have hs := closeEvt_state st g code
  refine ⟨hs.1, ?_, ?_⟩
  · intro hcode
    rw [hs.2.1, if_neg hcode]
  · intro hcode
    rw [hs.2.1, if_pos hcode]

theorem C1_close_handler_witness :
    (applyEvent (attemptState 0) (TEvent.closeEvt 0 1006)).attempts
      = (attemptState 0).attempts ∧
    (applyEvent (attemptState 0) (TEvent.closeEvt 0 1006)).engaged
      = (attemptState 0).engaged ∧
    (applyEvent (attemptState 0) (TEvent.closeEvt 0 1000)).engaged = false :=
  ⟨(C1_close_handler (attemptState 0) 0 1006).1,
   (C1_close_handler (attemptState 0) 0 1006).2.1 (by decide),
   (C1_close_handler (attemptState 0) 0 1000).2.2 rfl⟩

/-- C7 (counterexample): disengaging does not cancel the pending connection
timer (cleanup closes the socket but never clears the timeout, and the close
event that would clear it may be dispatched later).  If the timer task runs
first, its callback sees a non-OPEN socket and starts a fresh connect
attempt even though engagement is already false. -/
theorem C7_disengage_race_cex :
    (runEvents (connectWebSocket initialTransport) [TEvent.disengage]).engaged = false ∧
    (runEvents (connectWebSocket initialTransport) [TEvent.disengage]).attempts = 1 ∧
    (runEvents (connectWebSocket initialTransport)
        [TEvent.disengage, TEvent.timerFire 0]).attempts = 2 := by
  decide

/-- C7 (amended): every connect attempt arms a 5000 ms connection timer; a
timer that fires against a non-open channel aborts it and starts exactly one
new attempt immediately, with the same 5000 ms timeout (no backoff) and no
attempt cap — under the always-timing-out schedule the attempt count is n+1
after n timer firings with engagement still true; attempts can only be
started by a pending timer, so once the in-flight socket's close event has
been dispatched after disengagement (clearing the timer), no further connect
attempt ever begins — but if the timer fires before the close event is
delivered, one more attempt does start (see the counterexample). -/
theorem C7_retry_policy :
    (∀ st : TransportState, (connectWebSocket st).timers.head? = some (st.attempts, 5000)) ∧
    (∀ k : ℕ, applyEvent (attemptState k) (TEvent.timerFire k) = attemptState (k + 1)) ∧
    (∀ n : ℕ,
        (runEvents (connectWebSocket initialTransport) (fireSeq 0 n)).attempts = n + 1 ∧
        (runEvents (connectWebSocket initialTransport) (fireSeq 0 n)).engaged = true) ∧
    (∀ st : TransportState, st.timers = [] →
        ∀ evs, (runEvents st evs).attempts = st.attempts) ∧
    (∀ (st : TransportState) (g c : ℕ), st.timers = [(g, 5000)] →
        (runEvents st [TEvent.disengage, TEvent.closeEvt g c]).engaged = false ∧
        (runEvents st [TEvent.disengage, TEvent.closeEvt g c]).timers = [] ∧
        ∀ evs, (runEvents (runEvents st [TEvent.disengage, TEvent.closeEvt g c]) evs).attempts
          = st.attempts) := by
  refine ⟨fun st => rfl, attempt_step, ?_, ?_, ?_⟩
  · intro n
    rw [connect_initial, runEvents_fireSeq]
    exact ⟨by simp [attemptState], rfl⟩
  · intro st h evs
    exact (runEvents_no_timer evs st h).1
  · intro st g c h
    set st1 : TransportState := runEvents st [TEvent.disengage, TEvent.closeEvt g c] with hst1
    have hdis := setEngagedFalse_fields st
    have hrun : st1 = applyEvent (setEngagedFalse st) (TEvent.closeEvt g c) := rfl
    have hcl := closeEvt_state (setEngagedFalse st) g c
    have heng : st1.engaged = false := by
      rw [hrun, hcl.2.1, hdis.1]
      split_ifs <;> rfl
    have htim : st1.timers = [] := by
      rw [hrun, hcl.2.2, hdis.2.2, h]
      simp
    have hatt : st1.attempts = st.attempts := by
      rw [hrun, hcl.1, hdis.2.1]
    refine ⟨heng, htim, ?_⟩
    intro evs
    rw [(runEvents_no_timer evs st1 htim).1, hatt]

theorem C7_retry_policy_witness :
    (connectWebSocket initialTransport).timers.head? = some (0, 5000) ∧
    (runEvents (connectWebSocket initialTransport) (fireSeq 0 3)).attempts = 4 ∧
    (runEvents (runEvents (attemptState 0) [TEvent.disengage, TEvent.closeEvt 0 1006])
        [TEvent.timerFire 0]).attempts = (attemptState 0).attempts :=
  ⟨C7_retry_policy.1 initialTransport,
   (C7_retry_policy.2.2.1 3).1,
   (C7_retry_policy.2.2.2.2 (attemptState 0) 0 1006 rfl).2.2 [TEvent.timerFire 0]⟩
